import Mathlib

/-!
Verification development for the semigrate migration engine (migrate.js).

The definitions below are a shallow embedding of the source file
migrate.js.  Pure computations (semantic-version parsing, the catalog
listing, the final version check) are translated to Lean functions over
explicit data.  The promise-chained orchestration is translated to
explicit state passing: a run is a function from a configuration, a
directory listing, a failure oracle and an initial bookkeeping state to
a trace of session actions, a final bookkeeping state and an optional
error.  Two statements issued jointly through Q.all (that is, the second
is issued before the first has completed) are recorded as a single
parStmts action; statements awaited one after the other are recorded as
separate stmt actions.
-/

/-! ## Semantic versions

The source delegates version handling to the semver library.  The
version strings that reach it here never contain a hyphen (the name
pattern in parseMigrationSpec splits at the first hyphen), so a valid
version is an optional letter v, a MAJOR.MINOR.PATCH core of numeric
identifiers without leading zeros, and an optional plus-separated build
suffix; the canonical value returned by semver.valid is the bare core.
Versions are therefore modelled as triples of naturals with the
lexicographic order of semver.compare. -/

structure Version where
  major : Nat
  minor : Nat
  patch : Nat
deriving DecidableEq, Repr

/-- Strict order of semver.compare (compare returns -1). -/
def vltP (a b : Version) : Prop :=
  a.major < b.major ∨
    (a.major = b.major ∧
      (a.minor < b.minor ∨ (a.minor = b.minor ∧ a.patch < b.patch)))

/-- Reflexive order of semver.compare (compare returns -1 or 0). -/
def vleP (a b : Version) : Prop :=
  a.major < b.major ∨
    (a.major = b.major ∧
      (a.minor < b.minor ∨ (a.minor = b.minor ∧ a.patch ≤ b.patch)))

instance (a b : Version) : Decidable (vltP a b) := by
  unfold vltP; exact inferInstance

instance (a b : Version) : Decidable (vleP a b) := by
  unfold vleP; exact inferInstance

/-- Boolean form of vltP, as used by semver.gt and semver.lt. -/
def vltB (a b : Version) : Bool := decide (vltP a b)

/-- Boolean form of vleP. -/
def vleB (a b : Version) : Bool := decide (vleP a b)

/-! ## Model of semver.valid on hyphen-free inputs -/

/-- Numeric identifier of the semver grammar: one or more digits with no
leading zero. -/
def isNumericIdent : List Char → Bool
  | [] => false
  | [c] => c.isDigit
  | c :: rest => c.isDigit && c ≠ '0' && rest.all Char.isDigit

/-- Decimal value of a digit string. -/
def numVal (l : List Char) : Nat :=
  l.foldl (fun acc c => acc * 10 + (c.toNat - 48)) 0

/-- Separator split, the behaviour String.splitOn has for a one-character
separator, written structurally over the character list. -/
def splitOnChar (sep : Char) : List Char → List (List Char)
  | [] => [[]]
  | c :: rest =>
    match splitOnChar sep rest with
    | [] => [[c]]
    | g :: gs => if c = sep then [] :: g :: gs else (c :: g) :: gs

/-- Whitespace trim at both ends, as the semver parser applies. -/
def trimChars (l : List Char) : List Char :=
  ((l.dropWhile Char.isWhitespace).reverse.dropWhile Char.isWhitespace).reverse

/-- The MAJOR.MINOR.PATCH core of a semver string. -/
def parseMainVersion (l : List Char) : Option Version :=
  match splitOnChar '.' l with
  | [a, b, c] =>
    if isNumericIdent a && isNumericIdent b && isNumericIdent c then
      some ⟨numVal a, numVal b, numVal c⟩
    else none
  | _ => none

/-- Build-metadata identifier: nonempty, alphanumerics and hyphens. -/
def isBuildIdent (l : List Char) : Bool :=
  !l.isEmpty && l.all (fun c => c.isAlphanum || c = '-')

def validBuild (l : List Char) : Bool :=
  (splitOnChar '.' l).all isBuildIdent

/-- Model of semver.valid for the hyphen-free strings produced by the
name pattern of parseMigrationSpec: trims, strips one optional leading
letter v, accepts an optional plus-separated build suffix, and returns
the canonical MAJOR.MINOR.PATCH triple.  (The length and numeric-range
limits that the semver library also enforces are not modelled.) -/
def semverValidChars (l0 : List Char) : Option Version :=
  let l1 := trimChars l0
  let l2 := match l1 with
    | 'v' :: rest => rest
    | _ => l1
  match splitOnChar '+' l2 with
  | [main] => parseMainVersion main
  | [main, build] => if validBuild build then parseMainVersion main else none
  | _ => none

def semverValid (s : String) : Option Version := semverValidChars s.toList

/-! ## Path helpers (path.basename / path.extname) -/

/-- Model of path.basename: the part after the last slash. -/
def basenameChars (l : List Char) : List Char :=
  (l.reverse.takeWhile (fun c => c ≠ '/')).reverse

/-- Model of path.extname: from the last dot of the basename to the end,
empty when the basename has no dot or only a leading dot. -/
def extnameChars (l : List Char) : List Char :=
  let b := basenameChars l
  let afterRev := b.reverse.takeWhile (fun c => c ≠ '.')
  if afterRev.length = b.length then []
  else if afterRev.length + 1 = b.length then []
  else '.' :: afterRev.reverse

def extname (s : String) : String := String.mk (extnameChars s.toList)

/-- validMigrationType from the source: extension .sql or .js. -/
def validMigrationType (file : String) : Bool :=
  extname file = ".sql" || extname file = ".js"

/-! ## VersionCatalog: parseMigrationSpec and list -/

/-- A directory entry as seen by list: a plain file or a sub-directory
with the names of its children (fs.readdirSync order). -/
inductive Entry
  | file (name : String)
  | dir (name : String) (children : List String)
deriving DecidableEq, Repr

def entryPath : Entry → String
  | .file n => n
  | .dir n _ => n

/-- The regex match against the name pattern: the part before the first
hyphen and the rest.  No hyphen means no match. -/
def breakAtDash : List Char → Option (List Char × List Char)
  | [] => none
  | c :: rest =>
    if c = '-' then some ([], rest)
    else
      match breakAtDash rest with
      | none => none
      | some (a, b) => some (c :: a, b)

/-- A migration unit, the record built by parseMigrationSpec. -/
structure Mig where
  version : Version
  title : String
  multiple : Bool
  path : String
  files : List String
deriving DecidableEq, Repr

/-- parseMigrationSpec from the source: match the basename against the
version-hyphen-title pattern, validate the version part with
semver.valid, then collect the step files.  A directory keeps its
children with recognized script extensions in listing order; a single
file must itself have a recognized extension. -/
def parseMigrationSpec (e : Entry) : Option Mig :=
  match breakAtDash (basenameChars (entryPath e).toList) with
  | none => none
  | some (pre, rest) =>
    match semverValid (String.mk pre) with
    | none => none
    | some v =>
      match e with
      | .dir name children =>
        some { version := v, title := String.mk rest, multiple := true,
               path := name,
               files := (children.map (fun c => name ++ "/" ++ c)).filter
                 validMigrationType }
      | .file name =>
        if validMigrationType name then
          some { version := v, title := String.mk rest, multiple := false,
                 path := name, files := [name] }
        else none

/-- Comparator used by the sort in list: semver.compare on versions. -/
def migLE (a b : Mig) : Prop := vleP a.version b.version

instance : DecidableRel migLE := fun a b => by
  unfold migLE; exact inferInstance

instance : IsTotal Mig migLE :=
  ⟨fun a b => by
    rcases a with ⟨⟨a1, a2, a3⟩, _, _, _, _⟩
    rcases b with ⟨⟨b1, b2, b3⟩, _, _, _, _⟩
    simp only [migLE, vleP]
    omega⟩

instance : IsTrans Mig migLE :=
  ⟨fun a b c h1 h2 => by
    rcases a with ⟨⟨a1, a2, a3⟩, _, _, _, _⟩
    rcases b with ⟨⟨b1, b2, b3⟩, _, _, _, _⟩
    rcases c with ⟨⟨c1, c2, c3⟩, _, _, _, _⟩
    simp only [migLE, vleP] at h1 h2 ⊢
    omega⟩

/-- list from the source: parse every directory entry, drop the ones
that do not parse (lodash compact), and sort ascending by
semver.compare. -/
def list (entries : List Entry) : List Mig :=
  List.insertionSort migLE (entries.filterMap parseMigrationSpec)

/-! ## The final version check -/

/-- Upper bound of the caret range used by
semver.satisfies(version, caret lastMigration). -/
def caretUpper (t : Version) : Version :=
  if 0 < t.major then ⟨t.major + 1, 0, 0⟩
  else if 0 < t.minor then ⟨0, t.minor + 1, 0⟩
  else ⟨0, 0, t.patch + 1⟩

/-- semver.satisfies(v, caret range of t) for plain triples. -/
def caretSatisfies (v t : Version) : Bool :=
  vleB t v && vltB v (caretUpper t)

inductive CheckResult
  | upToDate
  | warnCompat
  | outOfDateErr
  | incompatibleErr
  | typeErr
deriving DecidableEq, Repr

/-- The decision of check from the source, given the maximum catalog
version (lastMigration, none when the catalog is empty) and the version
detected in the database (none when no row exists).  The branches are in
source order: a null detected version or detected below lastMigration is
the out-of-date error; equality is success; a detected version inside
the caret range of lastMigration is success with a compatibility
warning; anything else is the incompatible-version error.  When the
detected version is non-null but lastMigration is null, semver.gt throws
a TypeError. -/
def check (lastMigration : Option Version) (dbVersion : Option Version) :
    CheckResult :=
  match dbVersion with
  | none => .outOfDateErr
  | some v =>
    match lastMigration with
    | none => .typeErr
    | some t =>
      if vltB v t then .outOfDateErr
      else if v = t then .upToDate
      else if caretSatisfies v t then .warnCompat
      else .incompatibleErr

/-- semver.maxSatisfying(versions, any-version range): the maximum
recorded version, or none when no row exists. -/
def maxVersion : List Version → Option Version
  | [] => none
  | v :: rest =>
    match maxVersion rest with
    | none => some v
    | some w => some (if vleB v w then w else v)

/-! ## The orchestration model

A run of semigrate is modelled as a deterministic function of the
configuration, the parsed directory listing, a failure oracle (Env) and
the initial persisted bookkeeping rows.  It produces the ordered trace
of session actions, the final bookkeeping state and an optional error
(the rejection value of the returned promise).

The database is reduced to the rows of the semigrate.migrations table:
committed is the persisted table, working is the view inside the open
transaction.  BEGIN and ROLLBACK reset working to committed, COMMIT
copies working to committed, the bookkeeping INSERT and DELETE mutate
working.  Migration scripts, load scripts and procedural steps are
treated as abstract actions that succeed or fail by the oracle and do not
touch the bookkeeping rows. -/

/-- A database statement issued through Connection.query. -/
inductive Stmt
  | beginStmt
  | commit
  | rollback
  | createSchema
  | createTable
  | selectVersions
  | insertVersion (v : Version)
  | deleteAll
  | script (file : String)
deriving DecidableEq, Repr

/-- One observable action of a run.  parStmts records two statements
issued jointly through Q.all: the second is issued before the first has
completed.  procCall records the invocation of a required .js migration
function.  callbackCall records an invocation of the completion
callback with its first argument.  release would record a call of the
pooled connection release callback stored in Connection.done. -/
inductive Act
  | connect
  | stmt (s : Stmt)
  | parStmts (s1 s2 : Stmt)
  | procCall (file : String)
  | callbackCall (arg : Option String)
  | release
deriving DecidableEq, Repr

/-- Errors a run can end with. -/
inductive RunError
  | connectFailed
  | initFailed
  | resetFailed
  | recoveryFailed
  | invalidVersionType
  | stepFailed (file : String)
  | insertConflict (v : Version)
  | loadFailed (file : String)
  | commitFailed
  | checkDetectFailed
  | outOfDate
  | incompatible
  | typeErrorVersions
  | typeErrorConfigUndefined
deriving DecidableEq, Repr

/-- Failure oracle for the external database and script collaborators. -/
structure Env where
  connectOk : Bool
  beginOk : Bool
  initOk : Bool
  resetOk : Bool
  detectOk : Bool
  recoveryOk : Bool
  commitOk : Bool
  checkDetectOk : Bool
  stepOk : String → Bool

/-- Bookkeeping rows: persisted table and in-transaction view. -/
structure DBState where
  committed : List Version
  working : List Version
deriving DecidableEq, Repr

/-- Result of one phase (and of a whole run): trace, state, error. -/
abbrev PhaseResult := List Act × DBState × Option RunError

/-- Sequencing of promise-chained phases: a rejected promise skips every
later fulfillment handler. -/
def pseq (r : PhaseResult) (f : DBState → PhaseResult) : PhaseResult :=
  match r with
  | (t, db, none) =>
    let r2 := f db
    (t ++ r2.1, r2.2.1, r2.2.2)
  | (t, db, some e) => (t, db, some e)

/-- connect from the source: pg.connect then an immediate BEGIN. -/
def connectPhase (env : Env) (db : DBState) : PhaseResult :=
  if env.connectOk then
    if env.beginOk then
      ([.connect, .stmt .beginStmt], { db with working := db.committed }, none)
    else ([.connect, .stmt .beginStmt], db, some .connectFailed)
  else ([.connect], db, some .connectFailed)

/-- The schema-initialization step from the source: the CREATE SCHEMA
and CREATE TABLE statements are issued jointly through Q.all. -/
def initSchema (env : Env) (db : DBState) : PhaseResult :=
  if env.initOk then ([.parStmts .createSchema .createTable], db, none)
  else ([.parStmts .createSchema .createTable], db, some .initFailed)

/-- reset from the source: DELETE FROM semigrate.migrations. -/
def reset (env : Env) (db : DBState) : PhaseResult :=
  if env.resetOk then ([.stmt .deleteAll], { db with working := [] }, none)
  else ([.stmt .deleteAll], db, some .resetFailed)

/-- The value bound to version inside migrate after the detection
attempt: null, a valid version string, or the array that Q.all resolves
with when the detection query failed and the recovery handler ran. -/
inductive DetectVal
  | nullV
  | ver (v : Version)
  | arrV
deriving DecidableEq, Repr

/-- The lodash filter over the catalog inside migrate.  The predicate
first tests version for null, then calls semver.gt(unit version,
version); when version is the Q.all array, semver.gt throws a TypeError
on the first element, so the filter only survives an empty catalog. -/
def pendingFilter (migs : List Mig) (dv : DetectVal) :
    Except RunError (List Mig) :=
  match dv with
  | .nullV => .ok migs
  | .ver v => .ok (migs.filter (fun m => vltB v m.version))
  | .arrV =>
    match migs with
    | [] => .ok []
    | _ :: _ => .error .invalidVersionType

/-- Classification of one step file inside runStep: a .sql file is sent
as a script statement, a .js file is required and invoked, anything
else resolves immediately. -/
inductive StepKind
  | sqlStep
  | jsStep
  | skipStep
deriving DecidableEq, Repr

def stepKind (f : String) : StepKind :=
  if extname f = ".sql" then .sqlStep
  else if extname f = ".js" then .jsStep
  else .skipStep

/-- The session actions one step issues. -/
def stepActions (f : String) : List Act :=
  match stepKind f with
  | .sqlStep => [.stmt (.script f)]
  | .jsStep => [.procCall f]
  | .skipStep => []

/-- Whether one step succeeds: the default branch of runStep always
resolves; the other two follow the oracle. -/
def stepSucceeds (env : Env) (f : String) : Bool :=
  match stepKind f with
  | .skipStep => true
  | _ => env.stepOk f

/-- qMapSerial over runStep from the source: steps run strictly one
after the other, the first failure aborts the remaining steps. -/
def runSteps (env : Env) : List String → List Act × Option RunError
  | [] => ([], none)
  | f :: rest =>
    if stepSucceeds env f then
      let r := runSteps env rest
      (stepActions f ++ r.1, r.2)
    else (stepActions f, some (.stepFailed f))

/-- The step files of a unit: its contained files for a group, its own
path for a single-script unit. -/
def unitFiles (m : Mig) : List String :=
  if m.multiple then m.files else [m.path]

/-- run from the source: execute the steps of one unit, then (only when
every step succeeded) issue the bookkeeping INSERT of its version.  The
INSERT fails with a conflict when the version row already exists. -/
def run (env : Env) (m : Mig) (db : DBState) : PhaseResult :=
  let r := runSteps env (unitFiles m)
  match r.2 with
  | some e => (r.1, db, some e)
  | none =>
    if m.version ∈ db.working then
      (r.1 ++ [.stmt (.insertVersion m.version)], db,
        some (.insertConflict m.version))
    else
      (r.1 ++ [.stmt (.insertVersion m.version)],
        { db with working := db.working ++ [m.version] }, none)

/-- resume from the source: pop the pending units one at a time; a unit
failure rejects and the remaining queue is never attempted. -/
def resume (env : Env) : List Mig → DBState → PhaseResult
  | [], db => ([], db, none)
  | m :: rest, db =>
    let r := run env m db
    match r.2.2 with
    | some _ => r
    | none =>
      let r2 := resume env rest r.2.1
      (r.1 ++ r2.1, r2.2.1, r2.2.2)

/-- migrate from the source.  The detection query runs first; on
failure the rejection handler issues ROLLBACK and BEGIN jointly through
Q.all and returns that Q.all promise, so version becomes the resolved
array (not null).  The pending set is then computed by the lodash
filter and executed sequentially. -/
def migrate (env : Env) (migs : List Mig) (db : DBState) : PhaseResult :=
  if env.detectOk then
    let dv : DetectVal :=
      match maxVersion db.working with
      | none => .nullV
      | some v => .ver v
    match pendingFilter migs dv with
    | .error e => ([.stmt .selectVersions], db, some e)
    | .ok pending =>
      let r := resume env pending db
      (.stmt .selectVersions :: r.1, r.2.1, r.2.2)
  else
    let db1 := { db with working := db.committed }
    if env.recoveryOk then
      match pendingFilter migs .arrV with
      | .error e =>
        ([.stmt .selectVersions, .parStmts .rollback .beginStmt], db1, some e)
      | .ok pending =>
        let r := resume env pending db1
        (.stmt .selectVersions :: .parStmts .rollback .beginStmt :: r.1,
          r.2.1, r.2.2)
    else
      ([.stmt .selectVersions, .parStmts .rollback .beginStmt], db1,
        some .recoveryFailed)

/-- load from the source: each configured extra script is read and sent
as one statement, strictly sequentially. -/
def load (env : Env) : List String → DBState → PhaseResult
  | [], db => ([], db, none)
  | f :: rest, db =>
    if env.stepOk f then
      let r := load env rest db
      (.stmt (.script f) :: r.1, r.2.1, r.2.2)
    else ([.stmt (.script f)], db, some (.loadFailed f))

/-- finish from the source: COMMIT, making the working rows persistent. -/
def finish (env : Env) (db : DBState) : PhaseResult :=
  if env.commitOk then
    ([.stmt .commit], { committed := db.working, working := db.working }, none)
  else ([.stmt .commit], db, some .commitFailed)

/-- The check phase of a run: re-detect quietly, then decide with check.
A detection failure here is not absorbed. -/
def checkPhase (env : Env) (target : Option Version) (db : DBState) :
    PhaseResult :=
  if env.checkDetectOk then
    match check target (maxVersion db.working) with
    | .upToDate => ([.stmt .selectVersions], db, none)
    | .warnCompat => ([.stmt .selectVersions], db, none)
    | .outOfDateErr => ([.stmt .selectVersions], db, some .outOfDate)
    | .incompatibleErr => ([.stmt .selectVersions], db, some .incompatible)
    | .typeErr => ([.stmt .selectVersions], db, some .typeErrorVersions)
  else ([.stmt .selectVersions], db, some .checkDetectFailed)

/-- The recognized configuration surface of semigrate. -/
structure Config where
  colors : Bool
  reset : Bool
  migrate : Bool
  dryRun : Bool
  load : List String

/-- The promise chain of semigrate for a defined configuration: connect,
ensure schema, optional reset, optional migrate, load extra scripts,
then COMMIT unless dry-run (the dry-run branch only prints Reverting and
issues neither COMMIT nor ROLLBACK), then the final check. -/
def semigrateChain (cfg : Config) (migs : List Mig) (env : Env)
    (db : DBState) : PhaseResult :=
  pseq (connectPhase env db) fun db1 =>
  pseq (initSchema env db1) fun db2 =>
  pseq (if cfg.reset then reset env db2 else ([], db2, none)) fun db3 =>
  pseq (if cfg.migrate then migrate env migs db3 else ([], db3, none)) fun db4 =>
  pseq (load env cfg.load db4) fun db5 =>
  pseq (if cfg.dryRun then ([], db5, none) else finish env db5) fun db6 =>
  checkPhase env (maxVersion (migs.map (fun m => m.version))) db6

/-- semigrate from the source.  With an undefined configuration the very
first line (chalk.enabled = config.colors) throws a TypeError before the
defaulting line config = config or empty object runs, before the catalog
is read, before any connection is made and before the callback could be
invoked: the trace is empty and the call fails.  Otherwise the catalog
is listed, the chain runs, and Q fin invokes the completion callback.
Q fin takes a single callback and calls it with no arguments on both
fulfilment and rejection, so the bound null is the only argument the
callback ever receives (the second function given to fin is ignored),
and the stored pooled-connection release callback Connection.done is
never invoked anywhere. -/
def semigrate (config : Option Config) (entries : List Entry) (env : Env)
    (db0 : List Version) : PhaseResult :=
  match config with
  | none => ([], ⟨db0, db0⟩, some .typeErrorConfigUndefined)
  | some cfg =>
    let migrations := list entries
    let r := semigrateChain cfg migrations env ⟨db0, db0⟩
    (r.1 ++ [.callbackCall none], r.2.1, r.2.2)

/-! ## Derived trace notions and predicates -/

/-- Concatenation of the images of f, in order. -/
def concatMap (f : α → List β) : List α → List β
  | [] => []
  | a :: l => f a ++ concatMap f l

/-- The full trace of a successfully executed migration unit: the
actions of its steps in order, then the bookkeeping INSERT of its
version as the final action. -/
def unitTrace (m : Mig) : List Act :=
  concatMap stepActions (unitFiles m) ++ [Act.stmt (Stmt.insertVersion m.version)]

/-- The pending set as the specification describes it: every unit when
no version was detected, otherwise the units with a strictly greater
version, preserving catalog order. -/
def pendingOf (migs : List Mig) (v : Option Version) : List Mig :=
  match v with
  | none => migs
  | some w => migs.filter (fun m => vltB w m.version)

def isReleaseB : Act → Bool
  | .release => true
  | _ => false

def isCallbackB : Act → Bool
  | .callbackCall _ => true
  | _ => false

def isErrCallbackB : Act → Bool
  | .callbackCall (some _) => true
  | _ => false

def isCommitB : Act → Bool
  | .stmt .commit => true
  | _ => false

def isRollbackB : Act → Bool
  | .stmt .rollback => true
  | _ => false

def isInsertB : Act → Bool
  | .stmt (.insertVersion _) => true
  | _ => false

/-- Holds of every action except a parStmts pair other than the two the
source creates with Q.all: the schema-initialization pair and the
detection-recovery rollback/begin pair. -/
def knownParB : Act → Bool
  | .parStmts s1 s2 =>
    (s1 = Stmt.createSchema && s2 = Stmt.createTable) ||
      (s1 = Stmt.rollback && s2 = Stmt.beginStmt)
  | _ => true

/-- Combined invariant of every action of the promise chain: never a
release, never a callback (the callback is appended once by fin after
the chain), and joint issuance only for the two known Q.all pairs. -/
def okAct (a : Act) : Bool := !isReleaseB a && !isCallbackB a && knownParB a

def notCommitB (a : Act) : Bool := !isCommitB a

/-! ## Concrete fixtures used by witnesses and counterexamples -/

/-- Oracle under which every external operation succeeds. -/
def envAll : Env :=
  { connectOk := true, beginOk := true, initOk := true, resetOk := true,
    detectOk := true, recoveryOk := true, commitOk := true,
    checkDetectOk := true, stepOk := fun _ => true }

/-- Oracle whose detection query fails (bookkeeping table absent). -/
def envNoDetect : Env := { envAll with detectOk := false }

/-- Oracle under which every script step fails. -/
def envStepFail : Env := { envAll with stepOk := fun _ => false }

/-- Oracle under which exactly the step file 0.0.2-b.sql fails. -/
def envFailB : Env := { envAll with stepOk := fun f => f ≠ "0.0.2-b.sql" }

/-- Default-flavoured configuration: migrate on, nothing else. -/
def cfgStd : Config :=
  { colors := true, reset := false, migrate := true, dryRun := false,
    load := [] }

def cfgDry : Config := { cfgStd with dryRun := true }

/-- A one-file catalog directory. -/
def entriesOne : List Entry := [Entry.file "0.0.1-init.sql"]

/-- A directory with two valid entries carrying the same version. -/
def entriesDup : List Entry :=
  [Entry.file "1.0.0-a.sql", Entry.file "1.0.0-b.sql"]

def migA : Mig :=
  { version := ⟨0, 0, 1⟩, title := "a.sql", multiple := false,
    path := "0.0.1-a.sql", files := ["0.0.1-a.sql"] }

def migB : Mig :=
  { version := ⟨0, 0, 2⟩, title := "b.sql", multiple := false,
    path := "0.0.2-b.sql", files := ["0.0.2-b.sql"] }

def migC : Mig :=
  { version := ⟨0, 0, 3⟩, title := "c.sql", multiple := false,
    path := "0.0.3-c.sql", files := ["0.0.3-c.sql"] }

/-! ## Theorems: order facts -/

theorem vleP_refl (a : Version) : vleP a a := by
  rcases a with ⟨x, y, z⟩; unfold vleP; omega

theorem vleP_total (a b : Version) : vleP a b ∨ vleP b a := by
  rcases a with ⟨a1, a2, a3⟩; rcases b with ⟨b1, b2, b3⟩
  unfold vleP; omega

theorem vleP_trans {a b c : Version} (h1 : vleP a b) (h2 : vleP b c) :
    vleP a c := by
  rcases a with ⟨a1, a2, a3⟩; rcases b with ⟨b1, b2, b3⟩
  rcases c with ⟨c1, c2, c3⟩
  unfold vleP at h1 h2 ⊢; omega

theorem vltP_irrefl (a : Version) : ¬ vltP a a := by
  rcases a with ⟨x, y, z⟩; unfold vltP; omega

theorem vltP_asymm {a b : Version} (h : vltP a b) : ¬ vltP b a := by
  rcases a with ⟨a1, a2, a3⟩; rcases b with ⟨b1, b2, b3⟩
  unfold vltP at h ⊢; omega

theorem vltP_of_vleP_ne {a b : Version} (h1 : vleP a b) (h2 : a ≠ b) :
    vltP a b := by
  rcases a with ⟨a1, a2, a3⟩; rcases b with ⟨b1, b2, b3⟩
  simp only [ne_eq, Version.mk.injEq, not_and] at h2
  simp only [vleP] at h1
  simp only [vltP]
  by_cases e1 : a1 = b1
  · subst e1
    by_cases e2 : a2 = b2
    · subst e2
      have h3 : ¬ a3 = b3 := fun e3 => h2 rfl rfl e3
      omega
    · omega
  · omega

theorem vleP_of_vltP {a b : Version} (h : vltP a b) : vleP a b := by
  rcases a with ⟨a1, a2, a3⟩; rcases b with ⟨b1, b2, b3⟩
  unfold vltP at h; unfold vleP; omega

theorem not_mem_of_gt_max {v : Version} {l : List Version}
    (hub : ∀ u ∈ l, vleP u v) {w : Version} (hgt : vltP v w) : w ∉ l := by
  intro hmem
  exact vltP_asymm hgt (vltP_of_vleP_ne (hub w hmem)
    (fun e => vltP_irrefl v (e ▸ hgt)))

theorem maxVersion_eq_none {l : List Version} (h : maxVersion l = none) :
    l = [] := by
  cases l with
  | nil => rfl
  | cons v rest =>
    simp only [maxVersion] at h
    cases hm : maxVersion rest <;> simp [hm] at h

theorem maxVersion_ub {l : List Version} {w : Version}
    (h : maxVersion l = some w) : ∀ u ∈ l, vleP u w := by
  induction l generalizing w with
  | nil => simp [maxVersion] at h
  | cons v rest ih =>
    intro u hu
    cases hm : maxVersion rest with
    | none =>
      have hrest := maxVersion_eq_none hm
      subst hrest
      simp only [maxVersion, Option.some.injEq] at h
      subst h
      have he : u = v := by simpa using hu
      subst he
      exact vleP_refl u
    | some m =>
      simp only [maxVersion, hm, Option.some.injEq] at h
      subst h
      rcases List.mem_cons.mp hu with h1 | h2
      · subst h1
        by_cases hc : vleB u m
        · rw [if_pos hc]
          simpa [vleB] using hc
        · rw [if_neg hc]
          exact vleP_refl u
      · have hm2 := ih hm u h2
        by_cases hc : vleB v m
        · rw [if_pos hc]; exact hm2
        · rw [if_neg hc]
          have hvm : vleP m v := by
            rcases vleP_total v m with h3 | h3
            · exact absurd (by simpa [vleB] using h3) hc
            · exact h3
          exact vleP_trans hm2 hvm

/-! ## Theorems: trace shape of the phases -/

theorem pseq_all {p : Act → Bool} {r : PhaseResult} {f : DBState → PhaseResult}
    (h1 : r.1.all p = true) (h2 : ∀ db, ((f db).1.all p) = true) :
    ((pseq r f).1.all p) = true := by
  rcases r with ⟨t, db, e⟩
  cases e with
  | none =>
    simp only [pseq, List.all_append, Bool.and_eq_true]
    exact ⟨h1, h2 db⟩
  | some e => exact h1

theorem pseq_inv {I : DBState → Prop} {r : PhaseResult}
    {f : DBState → PhaseResult} (h1 : I r.2.1)
    (h2 : ∀ db, I db → I ((f db).2.1)) : I ((pseq r f).2.1) := by
  rcases r with ⟨t, db, e⟩
  cases e with
  | none => exact h2 db h1
  | some e => exact h1

theorem ite_phase_all {p : Act → Bool} {c : Bool} {r1 r2 : PhaseResult}
    (h1 : r1.1.all p = true) (h2 : r2.1.all p = true) :
    (((if c then r1 else r2) : PhaseResult).1.all p) = true := by
  cases c
  · simpa using h2
  · simpa using h1

theorem all_nil {p : Act → Bool} {db : DBState} :
    ((([], db, none) : PhaseResult).1.all p) = true := rfl

theorem connectPhase_all {p : Act → Bool} (hc : p .connect = true)
    (hb : p (.stmt .beginStmt) = true) (env : Env) (db : DBState) :
    ((connectPhase env db).1.all p) = true := by
  unfold connectPhase
  cases env.connectOk <;> cases env.beginOk <;> simp [hc, hb]

theorem initSchema_all {p : Act → Bool}
    (hpi : p (.parStmts .createSchema .createTable) = true)
    (env : Env) (db : DBState) : ((initSchema env db).1.all p) = true := by
  unfold initSchema
  cases env.initOk <;> simp [hpi]

theorem reset_all {p : Act → Bool} (hdel : p (.stmt .deleteAll) = true)
    (env : Env) (db : DBState) : ((reset env db).1.all p) = true := by
  unfold reset
  cases env.resetOk <;> simp [hdel]

theorem stepActions_all {p : Act → Bool}
    (hsql : ∀ f, p (.stmt (.script f)) = true)
    (hproc : ∀ f, p (.procCall f) = true) (f : String) :
    ((stepActions f).all p) = true := by
  unfold stepActions
  cases stepKind f <;> simp [hsql, hproc]

theorem runSteps_all {p : Act → Bool}
    (hsql : ∀ f, p (.stmt (.script f)) = true)
    (hproc : ∀ f, p (.procCall f) = true) (env : Env) (files : List String) :
    ((runSteps env files).1.all p) = true := by
  induction files with
  | nil => rfl
  | cons f rest ih =>
    unfold runSteps
    cases stepSucceeds env f <;>
      simp [List.all_append, stepActions_all hsql hproc, ih]

theorem run_all {p : Act → Bool}
    (hsql : ∀ f, p (.stmt (.script f)) = true)
    (hproc : ∀ f, p (.procCall f) = true)
    (hins : ∀ v, p (.stmt (.insertVersion v)) = true)
    (env : Env) (m : Mig) (db : DBState) :
    ((run env m db).1.all p) = true := by
  have hs := runSteps_all hsql hproc env (unitFiles m)
  rcases hr : runSteps env (unitFiles m) with ⟨t, e⟩
  rw [hr] at hs
  cases e with
  | none =>
    by_cases hm : m.version ∈ db.working <;>
      simp [run, hr, hm, List.all_append, hs, hins]
  | some err => simpa [run, hr] using hs

theorem resume_all {p : Act → Bool}
    (hsql : ∀ f, p (.stmt (.script f)) = true)
    (hproc : ∀ f, p (.procCall f) = true)
    (hins : ∀ v, p (.stmt (.insertVersion v)) = true)
    (env : Env) (ms : List Mig) (db : DBState) :
    ((resume env ms db).1.all p) = true := by
  induction ms generalizing db with
  | nil => rfl
  | cons m rest ih =>
    have hr := run_all hsql hproc hins env m db
    rcases hrun : run env m db with ⟨t, db2, e⟩
    rw [hrun] at hr
    cases e with
    | none => simp [resume, hrun, List.all_append, hr, ih]
    | some err => simpa [resume, hrun] using hr

theorem migrate_all {p : Act → Bool}
    (hsel : p (.stmt .selectVersions) = true)
    (hpar : p (.parStmts .rollback .beginStmt) = true)
    (hsql : ∀ f, p (.stmt (.script f)) = true)
    (hproc : ∀ f, p (.procCall f) = true)
    (hins : ∀ v, p (.stmt (.insertVersion v)) = true)
    (env : Env) (migs : List Mig) (db : DBState) :
    ((migrate env migs db).1.all p) = true := by
  unfold migrate
  cases env.detectOk with
  | false =>
    cases env.recoveryOk with
    | false => simp [hsel, hpar]
    | true =>
      cases migs with
      | nil => simp [pendingFilter, resume, hsel, hpar]
      | cons m rest => simp [pendingFilter, hsel, hpar]
  | true =>
    cases hm : maxVersion db.working with
    | none => simp [hm, pendingFilter, hsel, resume_all hsql hproc hins]
    | some v => simp [hm, pendingFilter, hsel, resume_all hsql hproc hins]

theorem load_all {p : Act → Bool}
    (hsql : ∀ f, p (.stmt (.script f)) = true)
    (env : Env) (files : List String) (db : DBState) :
    ((load env files db).1.all p) = true := by
  induction files generalizing db with
  | nil => rfl
  | cons f rest ih =>
    unfold load
    cases env.stepOk f <;> simp [hsql, ih]

theorem finish_all {p : Act → Bool} (hcom : p (.stmt .commit) = true)
    (env : Env) (db : DBState) : ((finish env db).1.all p) = true := by
  unfold finish
  cases env.commitOk <;> simp [hcom]

theorem checkPhase_all {p : Act → Bool}
    (hsel : p (.stmt .selectVersions) = true)
    (env : Env) (target : Option Version) (db : DBState) :
    ((checkPhase env target db).1.all p) = true := by
  unfold checkPhase
  cases env.checkDetectOk with
  | false => simp [hsel]
  | true => cases check target (maxVersion db.working) <;> simp [hsel]

theorem chain_all {p : Act → Bool}
    (hc : p .connect = true) (hb : p (.stmt .beginStmt) = true)
    (hpi : p (.parStmts .createSchema .createTable) = true)
    (hdel : p (.stmt .deleteAll) = true)
    (hsel : p (.stmt .selectVersions) = true)
    (hpar : p (.parStmts .rollback .beginStmt) = true)
    (hsql : ∀ f, p (.stmt (.script f)) = true)
    (hproc : ∀ f, p (.procCall f) = true)
    (hins : ∀ v, p (.stmt (.insertVersion v)) = true)
    (hcom : p (.stmt .commit) = true)
    (cfg : Config) (migs : List Mig) (env : Env) (db : DBState) :
    ((semigrateChain cfg migs env db).1.all p) = true := by
  unfold semigrateChain
  apply pseq_all (connectPhase_all hc hb env db)
  intro db1
  apply pseq_all (initSchema_all hpi env db1)
  intro db2
  apply pseq_all (ite_phase_all (reset_all hdel env db2) all_nil)
  intro db3
  apply pseq_all (ite_phase_all (migrate_all hsel hpar hsql hproc hins env migs db3) all_nil)
  intro db4
  apply pseq_all (load_all hsql env cfg.load db4)
  intro db5
  apply pseq_all (ite_phase_all all_nil (finish_all hcom env db5))
  intro db6
  exact checkPhase_all hsel env (maxVersion (migs.map (fun m => m.version))) db6

/-! ## Theorems: the persisted bookkeeping rows change only on COMMIT -/

theorem connectPhase_committed (env : Env) (db : DBState) :
    ((connectPhase env db).2.1).committed = db.committed := by
  unfold connectPhase
  cases env.connectOk <;> cases env.beginOk <;> rfl

theorem initSchema_committed (env : Env) (db : DBState) :
    ((initSchema env db).2.1).committed = db.committed := by
  unfold initSchema
  cases env.initOk <;> rfl

theorem reset_committed (env : Env) (db : DBState) :
    ((reset env db).2.1).committed = db.committed := by
  unfold reset
  cases env.resetOk <;> rfl

theorem run_committed (env : Env) (m : Mig) (db : DBState) :
    ((run env m db).2.1).committed = db.committed := by
  rcases hr : runSteps env (unitFiles m) with ⟨t, e⟩
  cases e with
  | none =>
    by_cases hm : m.version ∈ db.working <;> simp [run, hr, hm]
  | some err => simp [run, hr]

theorem resume_committed (env : Env) (ms : List Mig) (db : DBState) :
    ((resume env ms db).2.1).committed = db.committed := by
  induction ms generalizing db with
  | nil => rfl
  | cons m rest ih =>
    have hc := run_committed env m db
    rcases hrun : run env m db with ⟨t, db2, e⟩
    rw [hrun] at hc
    cases e with
    | none =>
      simp only [resume, hrun]
      rw [ih db2]
      exact hc
    | some err => simpa [resume, hrun] using hc

theorem migrate_committed (env : Env) (migs : List Mig) (db : DBState) :
    ((migrate env migs db).2.1).committed = db.committed := by
  unfold migrate
  cases env.detectOk with
  | false =>
    cases env.recoveryOk with
    | false => simp
    | true =>
      cases migs with
      | nil => simp [pendingFilter, resume]
      | cons m rest => simp [pendingFilter]
  | true =>
    cases hm : maxVersion db.working with
    | none => simp [hm, pendingFilter, resume_committed]
    | some v => simp [hm, pendingFilter, resume_committed]

theorem load_committed (env : Env) (files : List String) (db : DBState) :
    ((load env files db).2.1).committed = db.committed := by
  induction files generalizing db with
  | nil => rfl
  | cons f rest ih =>
    unfold load
    cases env.stepOk f <;> simp [ih]

theorem checkPhase_committed (env : Env) (target : Option Version)
    (db : DBState) : ((checkPhase env target db).2.1).committed = db.committed := by
  unfold checkPhase
  cases env.checkDetectOk with
  | false => rfl
  | true => cases check target (maxVersion db.working) <;> rfl

theorem ite_phase_committed {c : Bool} {r1 r2 : PhaseResult} {x : List Version}
    (h1 : (r1.2.1).committed = x) (h2 : (r2.2.1).committed = x) :
    (((if c then r1 else r2) : PhaseResult).2.1).committed = x := by
  cases c
  · simpa using h2
  · simpa using h1

/-- With dry-run set, the COMMIT slot of the chain is the identity, so
the persisted rows at the end of the chain are the initial ones. -/
theorem chain_dry_committed (cfg : Config) (migs : List Mig) (env : Env)
    (db : DBState) (hdry : cfg.dryRun = true) :
    ((semigrateChain cfg migs env db).2.1).committed = db.committed := by
  unfold semigrateChain
  rw [hdry]
  apply pseq_inv (I := fun s => s.committed = db.committed)
    (connectPhase_committed env db)
  intro db1 h1
  apply pseq_inv (I := fun s => s.committed = db.committed)
    ((initSchema_committed env db1).trans h1)
  intro db2 h2
  apply pseq_inv (I := fun s => s.committed = db.committed)
    (ite_phase_committed ((reset_committed env db2).trans h2) h2)
  intro db3 h3
  apply pseq_inv (I := fun s => s.committed = db.committed)
    (ite_phase_committed ((migrate_committed env migs db3).trans h3) h3)
  intro db4 h4
  apply pseq_inv (I := fun s => s.committed = db.committed)
    ((load_committed env cfg.load db4).trans h4)
  intro db5 h5
  apply pseq_inv (I := fun s => s.committed = db.committed) (by simpa using h5)
  intro db6 h6
  exact (checkPhase_committed env (maxVersion (migs.map (fun m => m.version))) db6).trans h6

/-- With dry-run set, the chain also never issues a COMMIT statement. -/
theorem chain_dry_all (cfg : Config) (migs : List Mig) (env : Env)
    (db : DBState) (hdry : cfg.dryRun = true) :
    ((semigrateChain cfg migs env db).1.all notCommitB) = true := by
  unfold semigrateChain
  rw [hdry]
  apply pseq_all (connectPhase_all rfl rfl env db)
  intro db1
  apply pseq_all (initSchema_all rfl env db1)
  intro db2
  apply pseq_all (ite_phase_all (reset_all rfl env db2) all_nil)
  intro db3
  apply pseq_all (ite_phase_all
    (migrate_all rfl rfl (fun f => rfl) (fun f => rfl) (fun v => rfl) env migs db3) all_nil)
  intro db4
  apply pseq_all (load_all (fun f => rfl) env cfg.load db4)
  intro db5
  apply pseq_all (p := notCommitB) (by simp)
  intro db6
  exact checkPhase_all (p := notCommitB) rfl env
    (maxVersion (migs.map (fun m => m.version))) db6

/-! ## Theorems: counting helpers -/

theorem countP_eq_zero_of_all {p q : Act → Bool} {l : List Act}
    (h : l.all p = true) (himp : ∀ a, p a = true → q a = false) :
    l.countP q = 0 := by
  rw [List.countP_eq_zero]
  intro a ha
  have hp := (List.all_eq_true.mp h) a ha
  simp [himp a hp]

theorem okAct_not_release {a : Act} (h : okAct a = true) :
    isReleaseB a = false := by
  cases a <;> simp_all [okAct, isReleaseB, isCallbackB, knownParB]

theorem okAct_not_callback {a : Act} (h : okAct a = true) :
    isCallbackB a = false := by
  cases a <;> simp_all [okAct, isReleaseB, isCallbackB, knownParB]

theorem okAct_knownPar {a : Act} (h : okAct a = true) :
    knownParB a = true := by
  unfold okAct at h
  simp only [Bool.and_eq_true] at h
  exact h.2

theorem errCallback_false_of_callback_false {a : Act}
    (h : isCallbackB a = false) : isErrCallbackB a = false := by
  cases a <;> simp [isCallbackB, isErrCallbackB] at *

/-- The trace invariant okAct holds across any whole chain. -/
theorem chain_okAct (cfg : Config) (migs : List Mig) (env : Env)
    (db : DBState) : ((semigrateChain cfg migs env db).1.all okAct) = true :=
  chain_all rfl rfl rfl rfl rfl rfl (fun _ => rfl) (fun _ => rfl)
    (fun _ => rfl) rfl cfg migs env db

/-! ## Theorems: the claims -/

/-- C1: the specification says the pooled connection is released exactly
once before the terminal callback on every completion path.  In the
source, the release callback handed over by pg.connect is stored in
Connection.done and never invoked on any path, so every run trace
contains zero release actions rather than one. -/
theorem c1_connection_never_released (config : Option Config)
    (entries : List Entry) (env : Env) (db0 : List Version) :
    ((semigrate config entries env db0).1.countP isReleaseB) = 0 := by
  cases config with
  | none => rfl
  | some cfg =>
    have h0 := countP_eq_zero_of_all
      (chain_okAct cfg (list entries) env ⟨db0, db0⟩)
      (fun a ha => okAct_not_release ha)
    simp [semigrate, List.countP_append, h0, List.countP_cons, isReleaseB]

/-- C10: calling semigrate with an undefined configuration throws the
TypeError from reading config.colors on the first line, before the
defaulting line, before the catalog is read, before any connection is
opened and before the completion callback could run: the trace is empty
and the call fails at once. -/
theorem c10_undefined_config_throws_before_connect (entries : List Entry)
    (env : Env) (db0 : List Version) :
    semigrate none entries env db0 =
      ([], ⟨db0, db0⟩, some RunError.typeErrorConfigUndefined) := rfl

set_option maxRecDepth 100000 in
/-- C5: the completion callback is invoked exactly once per run, but
because Q fin takes a single callback and invokes it with no arguments
on fulfilment and rejection alike, the bound null is always its only
argument: a failed run also receives null, never the error.  The last
two conjuncts exhibit a failing run (its migration step fails and the
run rejects with that error) whose callback still receives null. -/
theorem c5_callback_once_always_null :
    (∀ (cfg : Config) (entries : List Entry) (env : Env) (db0 : List Version),
      ((semigrate (some cfg) entries env db0).1.countP isCallbackB) = 1 ∧
      ((semigrate (some cfg) entries env db0).1.countP isErrCallbackB) = 0) ∧
    (semigrate (some cfgStd) entriesOne envStepFail []).2.2 =
      some (RunError.stepFailed "0.0.1-init.sql") ∧
    Act.callbackCall none ∈ (semigrate (some cfgStd) entriesOne envStepFail []).1 := by
  refine ⟨fun cfg entries env db0 => ⟨?_, ?_⟩, by decide, by decide⟩
  · have h0 := countP_eq_zero_of_all
      (chain_okAct cfg (list entries) env ⟨db0, db0⟩)
      (fun a ha => okAct_not_callback ha)
    simp [semigrate, List.countP_append, h0, List.countP_cons, isCallbackB]
  · have h0 := countP_eq_zero_of_all
      (chain_okAct cfg (list entries) env ⟨db0, db0⟩)
      (fun a ha => errCallback_false_of_callback_false (okAct_not_callback ha))
    simp [semigrate, List.countP_append, h0, List.countP_cons, isErrCallbackB]

set_option maxRecDepth 100000 in
/-- C9 is refuted as stated: in this plain successful run the CREATE
TABLE statement is issued jointly with CREATE SCHEMA through Q.all, that
is, before the CREATE SCHEMA statement has completed, recorded by the
parStmts action in the trace. -/
theorem c9_schema_init_issued_jointly :
    Act.parStmts Stmt.createSchema Stmt.createTable ∈
      (semigrate (some cfgStd) entriesOne envAll []).1 := by decide

/-- C9 amended: within a run every statement is issued only after the
previous one completed, except exactly the two pairs the source issues
jointly through Q.all: the CREATE SCHEMA / CREATE TABLE pair of
initialization and the ROLLBACK / BEGIN pair of detection recovery.
Formally, every action of every run trace satisfies knownParB: any
parStmts pair is one of those two. -/
theorem c9_only_known_parallel_pairs (config : Option Config)
    (entries : List Entry) (env : Env) (db0 : List Version) :
    ((semigrate config entries env db0).1.all knownParB) = true := by
  cases config with
  | none => rfl
  | some cfg =>
    have hall := chain_okAct cfg (list entries) env ⟨db0, db0⟩
    simp only [semigrate, List.all_append, Bool.and_eq_true]
    refine ⟨List.all_eq_true.mpr fun a ha =>
      okAct_knownPar ((List.all_eq_true.mp hall) a ha), rfl⟩

set_option maxRecDepth 100000 in
/-- C2: when the detection query fails during the migrating phase, the
rejection handler issues ROLLBACK and BEGIN and returns the Q.all
promise itself, so version becomes the resolved array instead of null;
with a nonempty catalog the pending filter then calls semver.gt with
that array and throws a TypeError, terminating the run with an error
and executing no migration unit, although the source comment says the
detection error is ignored and the run keeps going. -/
theorem c2_detection_recovery_errors_on_nonempty_catalog :
    semigrate (some cfgStd) entriesOne envNoDetect [] =
      ([Act.connect, Act.stmt Stmt.beginStmt,
        Act.parStmts Stmt.createSchema Stmt.createTable,
        Act.stmt Stmt.selectVersions,
        Act.parStmts Stmt.rollback Stmt.beginStmt,
        Act.callbackCall none],
       ⟨[], []⟩, some RunError.invalidVersionType) := by decide

set_option maxRecDepth 100000 in
/-- C3 is refuted as stated: this dry-run issues no ROLLBACK statement
at all (and no COMMIT either); the dry-run branch of the source only
prints Reverting and returns the connection. -/
theorem c3_dry_run_issues_no_rollback :
    cfgDry.dryRun = true ∧
    ((semigrate (some cfgDry) entriesOne envAll [⟨0, 0, 1⟩]).1.countP
      isRollbackB) = 0 ∧
    ((semigrate (some cfgDry) entriesOne envAll [⟨0, 0, 1⟩]).1.countP
      isCommitB) = 0 := by decide

/-- C3 amended: with dry-run set the run issues no COMMIT (and no
ROLLBACK at finalization; it simply leaves the transaction uncommitted),
so the persisted bookkeeping rows, and with them the observable current
version, are unchanged by the run. -/
theorem c3_dry_run_commit_free_preserves_bookkeeping (cfg : Config)
    (entries : List Entry) (env : Env) (db0 : List Version)
    (hdry : cfg.dryRun = true) :
    ((semigrate (some cfg) entries env db0).1.countP isCommitB) = 0 ∧
    ((semigrate (some cfg) entries env db0).2.1).committed = db0 ∧
    maxVersion ((semigrate (some cfg) entries env db0).2.1).committed =
      maxVersion db0 := by
  have h2 : ((semigrate (some cfg) entries env db0).2.1).committed = db0 :=
    chain_dry_committed cfg (list entries) env ⟨db0, db0⟩ hdry
  refine ⟨?_, h2, by rw [h2]⟩
  have h0 := countP_eq_zero_of_all
    (chain_dry_all cfg (list entries) env ⟨db0, db0⟩ hdry)
    (fun a ha => by simpa [notCommitB] using ha)
  simp [semigrate, List.countP_append, h0, List.countP_cons, isCommitB]

set_option maxRecDepth 100000 in
/-- Witness for the amended C3 at a concrete dry run. -/
theorem c3_dry_run_witness :
    cfgDry.dryRun = true ∧
    (((semigrate (some cfgDry) entriesOne envAll [⟨0, 0, 1⟩]).1.countP
        isCommitB) = 0 ∧
      ((semigrate (some cfgDry) entriesOne envAll [⟨0, 0, 1⟩]).2.1).committed =
        [⟨0, 0, 1⟩] ∧
      maxVersion ((semigrate (some cfgDry) entriesOne envAll
        [⟨0, 0, 1⟩]).2.1).committed = maxVersion [⟨0, 0, 1⟩]) :=
  ⟨rfl, c3_dry_run_commit_free_preserves_bookkeeping cfgDry entriesOne envAll
    [⟨0, 0, 1⟩] rfl⟩

/-- C4 is refuted at the instance the claim itself names: detected
2.0.0 against catalog maximum 1.5.0 does not share the major version
(2 versus 1), caret satisfaction fails, and check returns the
incompatible-version error rather than succeeding with a warning. -/
theorem c4_newer_major_fails_check :
    check (some ⟨1, 5, 0⟩) (some ⟨2, 0, 0⟩) = CheckResult.incompatibleErr := by
  decide

/-- C4 amended: for a detected version strictly above the target,
verification succeeds with the compatibility warning exactly when the
detected version satisfies the caret range of the target; in
particular, when the target major is at least 1, a detected version
with the same major always earns the warning.  (For major 0 the caret
range pins the minor as well, and crossing a major boundary, as in the
2.0.0 against 1.5.0 instance, is the incompatible-version error.) -/
theorem c4_warning_iff_caret_compatible (v t : Version) (hgt : vltP t v) :
    (check (some t) (some v) = CheckResult.warnCompat ↔
      caretSatisfies v t = true) ∧
    (1 ≤ t.major → v.major = t.major →
      check (some t) (some v) = CheckResult.warnCompat) := by
  have h1 : vltB v t = false := by
    simp only [vltB, decide_eq_false_iff_not]
    exact vltP_asymm hgt
  have h2 : ¬ (v = t) := fun e => vltP_irrefl t (e ▸ hgt)
  have hmain : check (some t) (some v) =
      (if caretSatisfies v t then CheckResult.warnCompat
       else CheckResult.incompatibleErr) := by
    simp [check, h1, h2]
  constructor
  · rw [hmain]
    by_cases hc : caretSatisfies v t <;> simp [hc]
  · intro hmaj heq
    rw [hmain]
    have hcs : caretSatisfies v t = true := by
      have hle : vleP t v := vleP_of_vltP hgt
      have hup : vltP v (caretUpper t) := by
        unfold caretUpper
        rw [if_pos (show 0 < t.major from hmaj)]
        refine Or.inl ?_
        show v.major < t.major + 1
        omega
      simp [caretSatisfies, vleB, vltB, hle, hup]
    simp [hcs]

/-- Witness for the amended C4: detected 1.2.0 is strictly above target
1.0.0 with the same major 1, and check warns. -/
theorem c4_warning_witness :
    vltP ⟨1, 0, 0⟩ ⟨1, 2, 0⟩ ∧
    check (some ⟨1, 0, 0⟩) (some ⟨1, 2, 0⟩) = CheckResult.warnCompat :=
  ⟨by decide,
    (c4_warning_iff_caret_compatible ⟨1, 2, 0⟩ ⟨1, 0, 0⟩ (by decide)).2
      (by decide) rfl⟩

/-! ## Theorems: the migrating phase on the success path -/

theorem runSteps_ok (env : Env) (files : List String)
    (h : ∀ f ∈ files, stepSucceeds env f = true) :
    runSteps env files = (concatMap stepActions files, none) := by
  induction files with
  | nil => rfl
  | cons f rest ih =>
    have hf := h f (List.mem_cons_self f rest)
    have hrest := ih (fun g hg => h g (List.mem_cons_of_mem f hg))
    unfold runSteps
    simp [hf, hrest, concatMap]

theorem run_ok (env : Env) (m : Mig) (dbc dbw : List Version)
    (hsteps : ∀ f ∈ unitFiles m, stepSucceeds env f = true)
    (hfresh : m.version ∉ dbw) :
    run env m ⟨dbc, dbw⟩ =
      (unitTrace m, ⟨dbc, dbw ++ [m.version]⟩, none) := by
  unfold run
  rw [runSteps_ok env (unitFiles m) hsteps]
  simp [hfresh, unitTrace]

theorem resume_ok (env : Env) : ∀ (ms : List Mig) (dbc dbw : List Version),
    (∀ m ∈ ms, ∀ f ∈ unitFiles m, stepSucceeds env f = true) →
    (∀ m ∈ ms, m.version ∉ dbw) →
    ((ms.map (fun m => m.version)).Pairwise (fun a b => a ≠ b)) →
    resume env ms ⟨dbc, dbw⟩ =
      (concatMap unitTrace ms,
       ⟨dbc, dbw ++ ms.map (fun m => m.version)⟩, none)
  | [], dbc, dbw, _, _, _ => by simp [resume, concatMap]
  | m :: rest, dbc, dbw, hsteps, hfresh, hdist => by
    have hrun := run_ok env m dbc dbw (hsteps m (List.mem_cons_self m rest))
      (hfresh m (List.mem_cons_self m rest))
    simp only [List.map_cons, List.pairwise_cons] at hdist
    have hrec := resume_ok env rest dbc (dbw ++ [m.version])
      (fun m2 h2 f hf => hsteps m2 (List.mem_cons_of_mem m h2) f hf)
      (fun m2 h2 => by
        simp only [List.mem_append, List.mem_singleton]
        rintro (h1 | h2eq)
        · exact hfresh m2 (List.mem_cons_of_mem m h2) h1
        · exact hdist.1 m2.version (List.mem_map_of_mem _ h2) h2eq.symm)
      hdist.2
    simp only [resume, hrun, hrec]
    simp [concatMap, List.append_assoc]

/-- C7: under successful detection, with pairwise distinct catalog
versions (the stated catalog invariant) and all executed steps
succeeding, the migrating phase runs exactly the units whose version is
strictly above the detected version (all units when none is recorded),
in catalog order: its trace is the detection query followed by the full
unit traces of the pending set in order, and the recorded versions grow
by exactly the pending versions in order. -/
theorem c7_pending_exactly_newer_in_order (env : Env) (migs : List Mig)
    (dbc dbw : List Version) (hdet : env.detectOk = true)
    (hsteps : ∀ m ∈ migs, ∀ f ∈ unitFiles m, stepSucceeds env f = true)
    (hdist : (migs.map (fun m => m.version)).Pairwise (fun a b => a ≠ b)) :
    migrate env migs ⟨dbc, dbw⟩ =
      (Act.stmt Stmt.selectVersions ::
        concatMap unitTrace (pendingOf migs (maxVersion dbw)),
       ⟨dbc, dbw ++ (pendingOf migs (maxVersion dbw)).map (fun m => m.version)⟩,
       none) := by
  unfold migrate
  rw [hdet]
  cases hm : maxVersion dbw with
  | none =>
    have hw := maxVersion_eq_none hm
    have hfresh : ∀ m ∈ migs, m.version ∉ dbw := by
      intro m _ hmem
      rw [hw] at hmem
      exact absurd hmem (List.not_mem_nil _)
    simp only [hm, pendingFilter, pendingOf, if_true]
    rw [resume_ok env migs dbc dbw hsteps hfresh hdist]
  | some w =>
    have hub := maxVersion_ub hm
    have hfresh : ∀ m ∈ migs.filter (fun m => vltB w m.version),
        m.version ∉ dbw := by
      intro m hmem
      have h2 := (List.mem_filter.mp hmem).2
      have hgt : vltP w m.version := by simpa [vltB] using h2
      exact not_mem_of_gt_max hub hgt
    have hsteps2 : ∀ m ∈ migs.filter (fun m => vltB w m.version),
        ∀ f ∈ unitFiles m, stepSucceeds env f = true :=
      fun m hmem f hf => hsteps m (List.mem_filter.mp hmem).1 f hf
    have hdist2 : ((migs.filter (fun m => vltB w m.version)).map
        (fun m => m.version)).Pairwise (fun a b => a ≠ b) :=
      List.Pairwise.sublist (List.Sublist.map _ (List.filter_sublist _)) hdist
    simp only [hm, pendingFilter, pendingOf, if_true]
    rw [resume_ok env _ dbc dbw hsteps2 hfresh hdist2]

set_option maxRecDepth 100000 in
/-- Witness for C7 at a concrete catalog: with 0.0.1 recorded, exactly
the 0.0.2 and 0.0.3 units run, in order. -/
theorem c7_pending_witness :
    envAll.detectOk = true ∧
    (∀ m ∈ [migA, migB, migC], ∀ f ∈ unitFiles m,
      stepSucceeds envAll f = true) ∧
    (([migA, migB, migC].map (fun m => m.version)).Pairwise
      (fun a b => a ≠ b)) ∧
    migrate envAll [migA, migB, migC] ⟨[⟨0, 0, 1⟩], [⟨0, 0, 1⟩]⟩ =
      (Act.stmt Stmt.selectVersions ::
        concatMap unitTrace (pendingOf [migA, migB, migC]
          (maxVersion [⟨0, 0, 1⟩])),
       ⟨[⟨0, 0, 1⟩], [⟨0, 0, 1⟩] ++ (pendingOf [migA, migB, migC]
          (maxVersion [⟨0, 0, 1⟩])).map (fun m => m.version)⟩,
       none) :=
  ⟨rfl, by decide, by decide,
    c7_pending_exactly_newer_in_order envAll [migA, migB, migC]
      [⟨0, 0, 1⟩] [⟨0, 0, 1⟩] rfl (by decide) (by decide)⟩

theorem stepActions_no_insert (f : String) :
    ((stepActions f).countP isInsertB) = 0 := by
  unfold stepActions
  cases stepKind f <;> simp [isInsertB]

theorem runSteps_no_insert (env : Env) (files : List String) :
    ((runSteps env files).1.countP isInsertB) = 0 := by
  induction files with
  | nil => rfl
  | cons f rest ih =>
    unfold runSteps
    cases stepSucceeds env f <;>
      simp [List.countP_append, ih, stepActions_no_insert]

/-- C6: the bookkeeping insert of a unit happens only after all its
steps succeeded — the step trace of the failing unit contains no insert
action — and when a unit in the pending sequence fails, the units
before it each ran all their steps followed by their insert (their full
unit traces), their versions were recorded in the transaction, the
failing unit contributes exactly its truncated step trace and its error,
and the units after it are never attempted: the trace ends at the
failure no matter what follows. -/
theorem c6_insert_after_steps_and_failure_isolation (env : Env) :
    ∀ (pre post : List Mig) (mfail : Mig) (dbc dbw : List Version),
    (∀ m ∈ pre, ∀ f ∈ unitFiles m, stepSucceeds env f = true) →
    (∀ m ∈ pre, m.version ∉ dbw) →
    ((pre.map (fun m => m.version)).Pairwise (fun a b => a ≠ b)) →
    (runSteps env (unitFiles mfail)).2 ≠ none →
    ((runSteps env (unitFiles mfail)).1.countP isInsertB = 0) ∧
    resume env (pre ++ mfail :: post) ⟨dbc, dbw⟩ =
      (concatMap unitTrace pre ++ (runSteps env (unitFiles mfail)).1,
       ⟨dbc, dbw ++ pre.map (fun m => m.version)⟩,
       (runSteps env (unitFiles mfail)).2)
  | [], post, mfail, dbc, dbw, _, _, _, hfail => by
    refine ⟨runSteps_no_insert env (unitFiles mfail), ?_⟩
    rcases hr : runSteps env (unitFiles mfail) with ⟨t, e⟩
    cases e with
    | none => rw [hr] at hfail; simp at hfail
    | some err => simp [resume, run, hr, concatMap]
  | m :: rest, post, mfail, dbc, dbw, hsteps, hfresh, hdist, hfail => by
    have hrun := run_ok env m dbc dbw (hsteps m (List.mem_cons_self m rest))
      (hfresh m (List.mem_cons_self m rest))
    simp only [List.map_cons, List.pairwise_cons] at hdist
    have hrec := c6_insert_after_steps_and_failure_isolation env rest post mfail
      dbc (dbw ++ [m.version])
      (fun m2 h2 f hf => hsteps m2 (List.mem_cons_of_mem m h2) f hf)
      (fun m2 h2 => by
        simp only [List.mem_append, List.mem_singleton]
        rintro (h1 | h2eq)
        · exact hfresh m2 (List.mem_cons_of_mem m h2) h1
        · exact hdist.1 m2.version (List.mem_map_of_mem _ h2) h2eq.symm)
      hdist.2 hfail
    refine ⟨hrec.1, ?_⟩
    have hres := hrec.2
    simp only [List.cons_append, resume, hrun, hres]
    simp [hres, concatMap, List.append_assoc]

set_option maxRecDepth 100000 in
/-- Witness for C6: with 0.0.1 succeeding and the 0.0.2 script failing,
unit 0.0.1 is recorded, 0.0.2 leaves only its failing step, and 0.0.3
is never attempted. -/
theorem c6_failure_isolation_witness :
    (∀ m ∈ [migA], ∀ f ∈ unitFiles m, stepSucceeds envFailB f = true) ∧
    (∀ m ∈ [migA], m.version ∉ ([] : List Version)) ∧
    (([migA].map (fun m => m.version)).Pairwise (fun a b => a ≠ b)) ∧
    ((runSteps envFailB (unitFiles migB)).2 ≠ none) ∧
    (((runSteps envFailB (unitFiles migB)).1.countP isInsertB = 0) ∧
      resume envFailB ([migA] ++ migB :: [migC]) ⟨[], []⟩ =
        (concatMap unitTrace [migA] ++ (runSteps envFailB (unitFiles migB)).1,
         ⟨[], [] ++ [migA].map (fun m => m.version)⟩,
         (runSteps envFailB (unitFiles migB)).2)) :=
  ⟨by decide, by decide, by decide, by decide,
    c6_insert_after_steps_and_failure_isolation envFailB [migA] [migC] migB
      [] [] (by decide) (by decide) (by decide) (by decide)⟩

/-! ## Theorems: the catalog listing -/

set_option maxRecDepth 100000 in
/-- C8 is refuted as stated: a directory may contain two valid entries
with the same version (here 1.0.0-a.sql and 1.0.0-b.sql); both are kept
and the resulting sequence carries the version 1.0.0 twice, so it is
not sorted strictly ascending (the strict pairwise comparison decides
to false). -/
theorem c8_duplicate_versions_not_strict :
    (list entriesDup).map (fun m => m.version) =
      [⟨1, 0, 0⟩, ⟨1, 0, 0⟩] ∧
    decide (List.Pairwise (fun a b : Mig => vltP a.version b.version)
      (list entriesDup)) = false := by decide

/-- C8 amended: the sequence returned by list is always sorted
ascending by semantic-version comparison, and strictly so whenever the
parsed entries carry pairwise distinct versions (the catalog
invariant); and every element of the result is the parse of some
directory entry, so an entry whose name does not parse (no hyphen, or
an invalid version before the first hyphen, or an unrecognized
extension) contributes nothing to the result. -/
theorem c8_sorted_and_invalid_absent (entries : List Entry) :
    List.Sorted migLE (list entries) ∧
    (((entries.filterMap parseMigrationSpec).map
        (fun m => m.version)).Pairwise (fun a b => a ≠ b) →
      List.Pairwise (fun a b : Mig => vltP a.version b.version)
        (list entries)) ∧
    (∀ u ∈ list entries, ∃ e ∈ entries, parseMigrationSpec e = some u) := by
  refine ⟨List.sorted_insertionSort migLE _, ?_, ?_⟩
  · intro hdist
    have hs : List.Sorted migLE (list entries) :=
      List.sorted_insertionSort migLE _
    have hperm : (list entries).Perm (entries.filterMap parseMigrationSpec) :=
      List.perm_insertionSort migLE _
    have hd2 : List.Pairwise (fun a b : Mig => a.version ≠ b.version)
        (entries.filterMap parseMigrationSpec) := by
      rw [← List.pairwise_map]
      exact hdist
    have hd3 : List.Pairwise (fun a b : Mig => a.version ≠ b.version)
        (list entries) :=
      (List.Perm.pairwise_iff (fun h => h.symm) hperm).mpr hd2
    exact (hs.and hd3).imp (fun h => vltP_of_vleP_ne h.1 h.2)
  · intro u hu
    have hperm : (list entries).Perm (entries.filterMap parseMigrationSpec) :=
      List.perm_insertionSort migLE _
    have hm : u ∈ entries.filterMap parseMigrationSpec := hperm.mem_iff.mp hu
    rcases List.mem_filterMap.mp hm with ⟨e, he, hpe⟩
    exact ⟨e, he, hpe⟩

set_option maxRecDepth 100000 in
/-- Witness for the amended C8 at a concrete directory with distinct
versions: the strict-sortedness branch applies. -/
theorem c8_sorted_witness :
    ((([Entry.file "1.0.0-b.sql", Entry.file "0.0.2-a.sql"].filterMap
        parseMigrationSpec).map (fun m => m.version)).Pairwise
      (fun a b => a ≠ b)) ∧
    List.Pairwise (fun a b : Mig => vltP a.version b.version)
      (list [Entry.file "1.0.0-b.sql", Entry.file "0.0.2-a.sql"]) :=
  ⟨by decide,
    (c8_sorted_and_invalid_absent
      [Entry.file "1.0.0-b.sql", Entry.file "0.0.2-a.sql"]).2.1 (by decide)⟩
